import Mathlib

/-!
Shallow embedding of the `SecretMessage` contract
(`src/contracts/SecretMsg_FHE.sol`) together with theorems checking the
natural-language specification against it.

Modelling conventions:
* `string`  ↦ `String`; `bytes` ↦ `List Nat` (one `Nat` per byte);
  `uint256`/`uint32` values appearing here are timestamps, handles and small
  decoded values, modelled as `Nat` (no arithmetic that could overflow occurs
  in the contract);
* the Solidity `mapping(string => EncryptedMessage)` is modelled as an
  association list with first-match lookup and default value on a miss, which
  matches Solidity's zero-initialised mapping semantics; `delete m[id]`
  writes the default (all-zero) struct;
* calls into the external `FHE` library (`fromExternal`, `isInitialized`,
  `checkSignatures`) are external cryptographic primitives, not code of this
  repository; they are passed in as an environment `FHEEnv` of pure
  functions, with `checkSignatures` reverting (here: branching to an
  `InvalidProof` error) when the boolean it computes is false;
* a failed `require`/revert aborts the transaction with no state change, so
  each entry point returns `Except ContractError (ContractState × Event)`
  and `applyOp` keeps the pre-state on an error.
-/

/-- Byte strings (`bytes` in Solidity): a list of byte values. -/
abbrev Bytes := List Nat

/-- Account addresses, abstracted to `Nat`. -/
abbrev Address := Nat

/-- An FHE ciphertext handle (`euint32` is a `bytes32` handle under the hood;
`FHE.toBytes32` is the identity on this representation). -/
abbrev Handle := Nat

/-- The `EncryptedMessage` struct of the contract, field for field. -/
structure EncryptedMessage where
  encryptedContent : Handle
  expirationTime : Nat
  isBurnAfterReading : Bool
  isDecrypted : Bool
  sender : Address
  timestamp : Nat
  condition : String
  decryptedContent : Nat
deriving Repr, DecidableEq

/-- The zero-initialised struct: value of an unset mapping slot, and the
result of `delete encryptedMessages[id]`. -/
def EncryptedMessage.zero : EncryptedMessage :=
  { encryptedContent := 0, expirationTime := 0, isBurnAfterReading := false,
    isDecrypted := false, sender := 0, timestamp := 0, condition := "",
    decryptedContent := 0 }

/-- The contract's storage: the `encryptedMessages` mapping (association
list, first match wins) and the `messageIds` array. -/
structure ContractState where
  encryptedMessages : List (String × EncryptedMessage)
  messageIds : List String
deriving Repr, DecidableEq

/-- The state of a freshly deployed contract. -/
def ContractState.init : ContractState := { encryptedMessages := [], messageIds := [] }

/-- Mapping read `encryptedMessages[id]`: zero-initialised on a miss. -/
def getMsg (st : ContractState) (messageId : String) : EncryptedMessage :=
  match st.encryptedMessages.lookup messageId with
  | some m => m
  | none => EncryptedMessage.zero

/-- Mapping write `encryptedMessages[id] = m` (shadowing older bindings). -/
def setMsg (st : ContractState) (messageId : String) (m : EncryptedMessage) :
    ContractState :=
  { st with encryptedMessages := (messageId, m) :: st.encryptedMessages }

/-- The external `FHE` library surface used by the contract, supplied as an
environment of pure functions (it is an external collaborator, not code of
this repository). -/
structure FHEEnv where
  /-- Model of `FHE.fromExternal(handle, inputProof)`. -/
  fromExternal : Nat → Bytes → Handle
  /-- Model of `FHE.isInitialized(handle)`. -/
  isInitialized : Handle → Bool
  /-- Model of `FHE.checkSignatures(handles, abiEncodedClearValues, proof)`:
  `true` means the signature check passes; `false` means it reverts. -/
  checkSignatures : List Handle → Bytes → Bytes → Bool

/-- Events emitted by the contract. -/
inductive Event
  | MessageSent (messageId : String) (sender : Address)
  | MessageDecrypted (messageId : String) (decryptedContent : Nat)
  | MessageBurned (messageId : String)
deriving Repr, DecidableEq

/-- Revert reasons of the contract, named after the spec's error taxonomy:
`DuplicateId` = "Message ID already exists", `MalformedCiphertext` =
"Invalid encrypted content", `NotFound` = "Message does not exist",
`AlreadyDecrypted` = "Message already decrypted", `Expired` =
"Message expired", `InvalidProof` = revert inside `FHE.checkSignatures`,
`DecodeError` = revert inside `abi.decode`. -/
inductive ContractError
  | DuplicateId
  | MalformedCiphertext
  | NotFound
  | AlreadyDecrypted
  | Expired
  | InvalidProof
  | DecodeError
deriving Repr, DecidableEq

/-- Model of `abi.decode(b, (uint32))` for a canonical single-word encoding: the input
must be exactly one 32-byte big-endian word whose value fits in `uint32`;
otherwise the call reverts (`none`). -/
def abiDecodeU32 (b : Bytes) : Option Nat :=
  if b.length = 32 then
    let v := b.foldl (fun acc d => acc * 256 + d) 0
    if v < 2 ^ 32 then some v else none
  else none

/-- The contract entry point `sendMessage(messageId, encryptedContent, inputProof, expirationTime,
isBurnAfterReading, condition)` of the contract, line for line:
duplicate check on the stored `condition`'s byte length, well-formedness
check via the FHE library, then the struct write, the `messageIds.push`,
and the `MessageSent` event. (`bytes(s).length == 0` iff `s.length = 0`.) -/
def sendMessage (env : FHEEnv) (msgSender : Address) (blockTimestamp : Nat)
    (st : ContractState) (messageId : String) (encryptedContent : Nat)
    (inputProof : Bytes) (expirationTime : Nat) (isBurnAfterReading : Bool)
    (condition : String) : Except ContractError (ContractState × Event) :=
  if ¬ (getMsg st messageId).condition.length = 0 then
    .error .DuplicateId
  else if ¬ env.isInitialized (env.fromExternal encryptedContent inputProof) then
    .error .MalformedCiphertext
  else
    .ok ({ encryptedMessages :=
             (messageId,
              { encryptedContent := env.fromExternal encryptedContent inputProof,
                expirationTime := expirationTime,
                isBurnAfterReading := isBurnAfterReading,
                isDecrypted := false,
                sender := msgSender,
                timestamp := blockTimestamp,
                condition := condition,
                decryptedContent := 0 }) :: st.encryptedMessages,
           messageIds := st.messageIds ++ [messageId] },
         .MessageSent messageId msgSender)

/-- The contract entry point `decryptMessage(messageId, abiEncodedClearValue, decryptionProof)` of the
contract, line for line: existence, already-decrypted and expiration
`require`s, then `FHE.checkSignatures` against the stored handle, then
`abi.decode`; on success the struct is updated (`decryptedContent`,
`isDecrypted`) and, if `isBurnAfterReading`, the entry is deleted
(zeroed) and `MessageBurned` is emitted, else `MessageDecrypted`. -/
def decryptMessage (env : FHEEnv) (blockTimestamp : Nat) (st : ContractState)
    (messageId : String) (abiEncodedClearValue : Bytes)
    (decryptionProof : Bytes) : Except ContractError (ContractState × Event) :=
  if (getMsg st messageId).condition.length = 0 then
    .error .NotFound
  else if (getMsg st messageId).isDecrypted then
    .error .AlreadyDecrypted
  else if (getMsg st messageId).expirationTime < blockTimestamp then
    .error .Expired
  else if ¬ env.checkSignatures [(getMsg st messageId).encryptedContent]
        abiEncodedClearValue decryptionProof then
    .error .InvalidProof
  else
    match abiDecodeU32 abiEncodedClearValue with
    | none => .error .DecodeError
    | some decodedValue =>
      if (getMsg st messageId).isBurnAfterReading then
        .ok (setMsg st messageId EncryptedMessage.zero,
             .MessageBurned messageId)
      else
        .ok (setMsg st messageId
               { getMsg st messageId with
                 decryptedContent := decodedValue, isDecrypted := true },
             .MessageDecrypted messageId decodedValue)

/-- The tuple returned by the `getMessage` view. -/
structure MessageView where
  expirationTime : Nat
  isBurnAfterReading : Bool
  isDecrypted : Bool
  sender : Address
  timestamp : Nat
  condition : String
  decryptedContent : Nat
deriving Repr, DecidableEq

/-- The view `getMessage(messageId)`: existence check, then a projection of the
stored struct. -/
def getMessage (st : ContractState) (messageId : String) :
    Except ContractError MessageView :=
  if (getMsg st messageId).condition.length = 0 then
    .error .NotFound
  else
    .ok { expirationTime := (getMsg st messageId).expirationTime,
          isBurnAfterReading := (getMsg st messageId).isBurnAfterReading,
          isDecrypted := (getMsg st messageId).isDecrypted,
          sender := (getMsg st messageId).sender,
          timestamp := (getMsg st messageId).timestamp,
          condition := (getMsg st messageId).condition,
          decryptedContent := (getMsg st messageId).decryptedContent }

/-- The view `getAllMessageIds()`: returns the `messageIds` array as is. -/
def getAllMessageIds (st : ContractState) : List String :=
  st.messageIds

/-- The view `getEncryptedContent(messageId)`: existence check, then the handle. -/
def getEncryptedContent (st : ContractState) (messageId : String) :
    Except ContractError Handle :=
  if (getMsg st messageId).condition.length = 0 then
    .error .NotFound
  else
    .ok (getMsg st messageId).encryptedContent

/-- A record "exists" iff its stored `condition` has non-zero length — the
existence sentinel used by every entry point of the contract. -/
def msgExists (st : ContractState) (messageId : String) : Prop :=
  ¬ (getMsg st messageId).condition.length = 0

instance (st : ContractState) (messageId : String) :
    Decidable (msgExists st messageId) := by
  unfold msgExists; infer_instance

/-- The state-changing entry points, as data, for frame theorems that
quantify over "any operation". -/
inductive Op
  | send (msgSender : Address) (messageId : String) (encryptedContent : Nat)
      (inputProof : Bytes) (expirationTime : Nat) (isBurnAfterReading : Bool)
      (condition : String)
  | decrypt (messageId : String) (abiEncodedClearValue : Bytes)
      (decryptionProof : Bytes)
deriving Repr, DecidableEq

/-- Run one entry point at a given block timestamp; a revert keeps the
pre-state (transaction atomicity of the ledger). -/
def applyOp (env : FHEEnv) (blockTimestamp : Nat) (st : ContractState)
    (op : Op) : ContractState :=
  match op with
  | .send s id ec ip et b c =>
    match sendMessage env s blockTimestamp st id ec ip et b c with
    | .ok (st', _) => st'
    | .error _ => st
  | .decrypt id cv p =>
    match decryptMessage env blockTimestamp st id cv p with
    | .ok (st', _) => st'
    | .error _ => st

/-- Run a sequence of operations left to right, each with its own
environment and block timestamp. -/
def applyOps (st : ContractState) :
    List (FHEEnv × Nat × Op) → ContractState
  | [] => st
  | (env, t, op) :: rest => applyOps (applyOp env t st op) rest

/-! ### Basic lemmas about the storage model -/

theorem getMsg_setMsg_self (st : ContractState) (messageId : String)
    (m : EncryptedMessage) : getMsg (setMsg st messageId m) messageId = m := by
  simp [getMsg, setMsg, List.lookup]

theorem getMsg_setMsg_ne (st : ContractState) (messageId id2 : String)
    (m : EncryptedMessage) (h : ¬ id2 = messageId) :
    getMsg (setMsg st messageId m) id2 = getMsg st id2 := by
  simp only [getMsg, setMsg, List.lookup]
  rw [show (id2 == messageId) = false from beq_eq_false_iff_ne.mpr h]

theorem setMsg_messageIds (st : ContractState) (messageId : String)
    (m : EncryptedMessage) : (setMsg st messageId m).messageIds = st.messageIds := rfl

/-! ### Concrete fixtures used by witnesses and counterexamples -/

/-- An environment in which every external FHE check passes and external
handles are taken over unchanged. -/
def envOK : FHEEnv :=
  { fromExternal := fun h _ => h, isInitialized := fun _ => true,
    checkSignatures := fun _ _ _ => true }

/-- An environment whose signature check always fails (an invalid proof). -/
def envBad : FHEEnv :=
  { fromExternal := fun h _ => h, isInitialized := fun _ => true,
    checkSignatures := fun _ _ _ => false }

/-- The canonical 32-byte ABI encoding of the `uint32` value 42. -/
def enc42 : Bytes := List.replicate 31 0 ++ [42]

/-- A burn-after-read record, as written by
`sendMessage envOK 7 100 _ "m1" 5 _ 1000 true "c"`. -/
def recBurn : EncryptedMessage :=
  { encryptedContent := 5, expirationTime := 1000, isBurnAfterReading := true,
    isDecrypted := false, sender := 7, timestamp := 100, condition := "c",
    decryptedContent := 0 }

/-- A non-burn record with the same parameters. -/
def recPlain : EncryptedMessage := { recBurn with isBurnAfterReading := false }

/-- State holding one burn-after-read record `"m1"`. -/
def stBurn : ContractState :=
  { encryptedMessages := [("m1", recBurn)], messageIds := ["m1"] }

/-- State holding one non-burn record `"m1"`. -/
def stPlain : ContractState :=
  { encryptedMessages := [("m1", recPlain)], messageIds := ["m1"] }

/-- State `stBurn` after the burn-after-read decryption of `"m1"`. -/
def stBurned : ContractState := setMsg stBurn "m1" EncryptedMessage.zero

/-- State `stPlain` after the (non-burn) decryption of `"m1"` with value 42. -/
def stPlainDec : ContractState :=
  setMsg stPlain "m1" { recPlain with decryptedContent := 42, isDecrypted := true }

/-- State `stBurned` after `"m1"` is created a second time. -/
def stRecreated : ContractState :=
  { encryptedMessages :=
      ("m1", { encryptedContent := 6, expirationTime := 2000,
               isBurnAfterReading := true, isDecrypted := false, sender := 8,
               timestamp := 200, condition := "d", decryptedContent := 0 })
        :: stBurned.encryptedMessages,
    messageIds := stBurned.messageIds ++ ["m1"] }

/-! ### Characterisation of `decryptMessage` outcomes -/

theorem decrypt_notFound_iff (env : FHEEnv) (now : Nat) (st : ContractState)
    (id : String) (cv p : Bytes) :
    decryptMessage env now st id cv p = .error .NotFound ↔
      (getMsg st id).condition.length = 0 := by
  unfold decryptMessage
  repeat' split <;> try simp_all

theorem decrypt_alreadyDecrypted_iff (env : FHEEnv) (now : Nat)
    (st : ContractState) (id : String) (cv p : Bytes) :
    decryptMessage env now st id cv p = .error .AlreadyDecrypted ↔
      ¬ (getMsg st id).condition.length = 0 ∧
      (getMsg st id).isDecrypted = true := by
  unfold decryptMessage
  repeat' split <;> try simp_all

theorem decrypt_expired_iff (env : FHEEnv) (now : Nat) (st : ContractState)
    (id : String) (cv p : Bytes) :
    decryptMessage env now st id cv p = .error .Expired ↔
      ¬ (getMsg st id).condition.length = 0 ∧
      (getMsg st id).isDecrypted = false ∧
      (getMsg st id).expirationTime < now := by
  unfold decryptMessage
  repeat' split <;> try simp_all

theorem decrypt_invalidProof_iff (env : FHEEnv) (now : Nat) (st : ContractState)
    (id : String) (cv p : Bytes) :
    decryptMessage env now st id cv p = .error .InvalidProof ↔
      ¬ (getMsg st id).condition.length = 0 ∧
      (getMsg st id).isDecrypted = false ∧
      now ≤ (getMsg st id).expirationTime ∧
      env.checkSignatures [(getMsg st id).encryptedContent] cv p = false := by
  unfold decryptMessage
  repeat' split <;> try simp_all

/-- A successful `decryptMessage` call: where it can come from and what it
writes, in both the burn and the non-burn branch. -/
theorem decrypt_ok_cases (env : FHEEnv) (now : Nat) (st : ContractState)
    (id : String) (cv p : Bytes) (st' : ContractState) (ev : Event)
    (h : decryptMessage env now st id cv p = .ok (st', ev)) :
    ¬ (getMsg st id).condition.length = 0 ∧
    (getMsg st id).isDecrypted = false ∧
    now ≤ (getMsg st id).expirationTime ∧
    env.checkSignatures [(getMsg st id).encryptedContent] cv p = true ∧
    ∃ v, abiDecodeU32 cv = some v ∧
      (((getMsg st id).isBurnAfterReading = true ∧
        st' = setMsg st id EncryptedMessage.zero ∧ ev = .MessageBurned id) ∨
       ((getMsg st id).isBurnAfterReading = false ∧
        st' = setMsg st id
          { getMsg st id with decryptedContent := v, isDecrypted := true } ∧
        ev = .MessageDecrypted id v)) := by
  unfold decryptMessage at h
  repeat' split at h <;> try simp_all

/-! ### Characterisation of `sendMessage` outcomes -/

theorem send_duplicate_iff (env : FHEEnv) (s : Address) (t : Nat)
    (st : ContractState) (id : String) (ec : Nat) (ip : Bytes) (et : Nat)
    (b : Bool) (c : String) :
    sendMessage env s t st id ec ip et b c = .error .DuplicateId ↔
      ¬ (getMsg st id).condition.length = 0 := by
  unfold sendMessage
  repeat' split <;> try simp_all

/-- A successful `sendMessage` call: the preconditions it passed and the
exact state it writes. -/
theorem send_ok_cases (env : FHEEnv) (s : Address) (t : Nat)
    (st : ContractState) (id : String) (ec : Nat) (ip : Bytes) (et : Nat)
    (b : Bool) (c : String) (st' : ContractState) (ev : Event)
    (h : sendMessage env s t st id ec ip et b c = .ok (st', ev)) :
    (getMsg st id).condition.length = 0 ∧
    env.isInitialized (env.fromExternal ec ip) = true ∧
    st' = { encryptedMessages :=
              (id, { encryptedContent := env.fromExternal ec ip,
                     expirationTime := et, isBurnAfterReading := b,
                     isDecrypted := false, sender := s, timestamp := t,
                     condition := c, decryptedContent := 0 })
                :: st.encryptedMessages,
            messageIds := st.messageIds ++ [id] } ∧
    ev = .MessageSent id s := by
  unfold sendMessage at h
  repeat' split at h <;> try simp_all

/-- Reading `getMsg` depends only on the `encryptedMessages` component. -/
theorem getMsg_eq_of_msgs (st st' : ContractState) (id : String)
    (h : st.encryptedMessages = st'.encryptedMessages) :
    getMsg st id = getMsg st' id := by
  simp [getMsg, h]

theorem getMsg_cons_self (l : List (String × EncryptedMessage))
    (ms : List String) (mid : String) (x : EncryptedMessage) :
    getMsg { encryptedMessages := (mid, x) :: l, messageIds := ms } mid = x := by
  simp [getMsg, List.lookup]

theorem getMsg_cons_ne (l : List (String × EncryptedMessage))
    (ms ms2 : List String) (mid id : String) (x : EncryptedMessage)
    (h : ¬ id = mid) :
    getMsg { encryptedMessages := (mid, x) :: l, messageIds := ms } id =
      getMsg { encryptedMessages := l, messageIds := ms2 } id := by
  simp only [getMsg, List.lookup]
  rw [show (id == mid) = false from beq_eq_false_iff_ne.mpr h]

/-- Any single operation keeps the ciphertext handle of a record that
exists before and after it. -/
theorem applyOp_preserves_handle (env : FHEEnv) (t : Nat) (st : ContractState)
    (id : String) (op : Op)
    (hex : ¬ (getMsg st id).condition.length = 0)
    (hex2 : ¬ (getMsg (applyOp env t st op) id).condition.length = 0) :
    (getMsg (applyOp env t st op) id).encryptedContent =
      (getMsg st id).encryptedContent := by
  cases op with
  | send s id2 ec ip et b c =>
    simp only [applyOp] at hex2 ⊢
    cases h : sendMessage env s t st id2 ec ip et b c with
    | error e => simp only [h]
    | ok r =>
      obtain ⟨st1, ev⟩ := r
      simp only [h] at hex2 ⊢
      obtain ⟨hempty, _, hst1, _⟩ :=
        send_ok_cases env s t st id2 ec ip et b c st1 ev h
      by_cases hid : id = id2
      · subst hid; exact absurd hempty hex
      · subst hst1
        rw [getMsg_cons_ne st.encryptedMessages _ st.messageIds id2 id _ hid]
  | decrypt id2 cv p =>
    simp only [applyOp] at hex2 ⊢
    cases h : decryptMessage env t st id2 cv p with
    | error e => simp only [h]
    | ok r =>
      obtain ⟨st1, ev⟩ := r
      simp only [h] at hex2 ⊢
      obtain ⟨hne, hdec, hle, hsig, v, hv, hcase⟩ :=
        decrypt_ok_cases env t st id2 cv p st1 ev h
      by_cases hid : id = id2
      · subst hid
        rcases hcase with ⟨hb, hst1, hev⟩ | ⟨hb, hst1, hev⟩
        · subst hst1
          rw [getMsg_setMsg_self] at hex2
          exact absurd rfl hex2
        · subst hst1
          rw [getMsg_setMsg_self]
      · rcases hcase with ⟨hb, hst1, hev⟩ | ⟨hb, hst1, hev⟩ <;> subst hst1 <;>
          rw [getMsg_setMsg_ne st id2 id _ hid]

/-- Any single operation leaves a record that exists and is already
decrypted completely untouched. -/
theorem applyOp_preserves_decrypted_record (env : FHEEnv) (t : Nat)
    (st : ContractState) (id : String) (op : Op)
    (hex : ¬ (getMsg st id).condition.length = 0)
    (hdec : (getMsg st id).isDecrypted = true) :
    getMsg (applyOp env t st op) id = getMsg st id := by
  cases op with
  | send s id2 ec ip et b c =>
    simp only [applyOp]
    cases h : sendMessage env s t st id2 ec ip et b c with
    | error e => rfl
    | ok r =>
      obtain ⟨st1, ev⟩ := r
      obtain ⟨hempty, _, hst1, _⟩ :=
        send_ok_cases env s t st id2 ec ip et b c st1 ev h
      by_cases hid : id = id2
      · subst hid; exact absurd hempty hex
      · subst hst1
        rw [getMsg_cons_ne st.encryptedMessages _ st.messageIds id2 id _ hid]
  | decrypt id2 cv p =>
    simp only [applyOp]
    cases h : decryptMessage env t st id2 cv p with
    | error e => rfl
    | ok r =>
      obtain ⟨st1, ev⟩ := r
      obtain ⟨hne, hdec2, hle, hsig, v, hv, hcase⟩ :=
        decrypt_ok_cases env t st id2 cv p st1 ev h
      by_cases hid : id = id2
      · subst hid; simp [hdec] at hdec2
      · rcases hcase with ⟨hb, hst1, hev⟩ | ⟨hb, hst1, hev⟩ <;> subst hst1 <;>
          rw [getMsg_setMsg_ne st id2 id _ hid]

/-- Iterating: an existing, already-decrypted record is untouched by any
sequence of further operations. -/
theorem applyOps_preserves_decrypted_record (st : ContractState) (id : String)
    (ops : List (FHEEnv × Nat × Op))
    (hex : ¬ (getMsg st id).condition.length = 0)
    (hdec : (getMsg st id).isDecrypted = true) :
    getMsg (applyOps st ops) id = getMsg st id := by
  induction ops generalizing st with
  | nil => rfl
  | cons e rest ih =>
    obtain ⟨env, t, op⟩ := e
    have hpres := applyOp_preserves_decrypted_record env t st id op hex hdec
    show getMsg (applyOps (applyOp env t st op) rest) id = getMsg st id
    rw [ih (applyOp env t st op) (by rw [hpres]; exact hex)
          (by rw [hpres]; exact hdec), hpres]

/-- C3: the failure outcomes `NotFound`, `AlreadyDecrypted`, `Expired` and
`InvalidProof` of a decrypt call are mutually exclusive and decided in that
priority order: existence first, then the already-decrypted flag, then
expiration against the current time, and only then the decryption proof. -/
theorem decrypt_failure_priority (env : FHEEnv) (now : Nat)
    (st : ContractState) (id : String) (cv p : Bytes) :
    (decryptMessage env now st id cv p = .error .NotFound ↔
      ¬ msgExists st id) ∧
    (decryptMessage env now st id cv p = .error .AlreadyDecrypted ↔
      msgExists st id ∧ (getMsg st id).isDecrypted = true) ∧
    (decryptMessage env now st id cv p = .error .Expired ↔
      msgExists st id ∧ (getMsg st id).isDecrypted = false ∧
      (getMsg st id).expirationTime < now) ∧
    (decryptMessage env now st id cv p = .error .InvalidProof ↔
      msgExists st id ∧ (getMsg st id).isDecrypted = false ∧
      now ≤ (getMsg st id).expirationTime ∧
      env.checkSignatures [(getMsg st id).encryptedContent] cv p = false) := by
  refine ⟨?_, ?_, ?_, ?_⟩
  · simpa [msgExists, not_not] using decrypt_notFound_iff env now st id cv p
  · exact decrypt_alreadyDecrypted_iff env now st id cv p
  · exact decrypt_expired_iff env now st id cv p
  · exact decrypt_invalidProof_iff env now st id cv p

/-- C4: for an active record, a decrypt at `now = expirationTime` is not
rejected as `Expired` (an invalid proof is then reported as `InvalidProof`,
i.e. the call proceeded to proof verification), while a decrypt at
`now = expirationTime + 1` fails with `Expired` whatever the proof. -/
theorem decrypt_expiration_boundary (env : FHEEnv) (st : ContractState)
    (id : String) (cv p : Bytes)
    (hex : msgExists st id)
    (hnd : (getMsg st id).isDecrypted = false) :
    ¬ decryptMessage env (getMsg st id).expirationTime st id cv p =
        .error .Expired ∧
    (env.checkSignatures [(getMsg st id).encryptedContent] cv p = false →
      decryptMessage env (getMsg st id).expirationTime st id cv p =
        .error .InvalidProof) ∧
    decryptMessage env ((getMsg st id).expirationTime + 1) st id cv p =
      .error .Expired := by
  refine ⟨?_, ?_, ?_⟩
  · intro h
    obtain ⟨-, -, hlt⟩ := (decrypt_expired_iff env _ st id cv p).mp h
    omega
  · intro hsig
    exact (decrypt_invalidProof_iff env _ st id cv p).mpr
      ⟨hex, hnd, le_refl _, hsig⟩
  · exact (decrypt_expired_iff env _ st id cv p).mpr ⟨hex, hnd, by omega⟩

theorem decrypt_expiration_boundary_witness :
    ¬ decryptMessage envBad 1000 stPlain "m1" enc42 [] = .error .Expired ∧
    decryptMessage envBad 1000 stPlain "m1" enc42 [] = .error .InvalidProof ∧
    decryptMessage envBad 1001 stPlain "m1" enc42 [] = .error .Expired := by
  have h := decrypt_expiration_boundary envBad stPlain "m1" enc42 []
    (by decide) (by decide)
  have e : (getMsg stPlain "m1").expirationTime = 1000 := rfl
  rw [e] at h
  exact ⟨h.1, h.2.1 rfl, h.2.2⟩

/-- C8: a decrypt call that fails leaves the durable state unchanged —
the transaction reverts, so the record keeps all fields it had before. -/
theorem decrypt_failure_atomic (env : FHEEnv) (now : Nat) (st : ContractState)
    (id : String) (cv p : Bytes) (e : ContractError)
    (h : decryptMessage env now st id cv p = .error e) :
    applyOp env now st (.decrypt id cv p) = st ∧
    getMsg (applyOp env now st (.decrypt id cv p)) id = getMsg st id ∧
    getMessage (applyOp env now st (.decrypt id cv p)) id = getMessage st id := by
  have hst : applyOp env now st (.decrypt id cv p) = st := by
    simp only [applyOp, h]
  exact ⟨hst, by rw [hst], by rw [hst]⟩

theorem decrypt_failure_atomic_witness :
    applyOp envOK 1001 stPlain (.decrypt "m1" enc42 []) = stPlain ∧
    getMsg (applyOp envOK 1001 stPlain (.decrypt "m1" enc42 [])) "m1" =
      getMsg stPlain "m1" ∧
    getMessage (applyOp envOK 1001 stPlain (.decrypt "m1" enc42 [])) "m1" =
      getMessage stPlain "m1" :=
  decrypt_failure_atomic envOK 1001 stPlain "m1" enc42 [] .Expired rfl

/-- C5: once a create for `id` has succeeded with a non-empty condition, a
second create with the same `id` fails with `DuplicateId`, the stored record
still holds exactly the first call's fields, and the failed call leaves the
state unchanged. -/
theorem create_duplicate_id (env env2 : FHEEnv) (s s2 : Address) (t t2 : Nat)
    (st st1 : ContractState) (id : String) (ec ec2 : Nat) (ip ip2 : Bytes)
    (et et2 : Nat) (b b2 : Bool) (c c2 : String) (ev : Event)
    (hc : ¬ c.length = 0)
    (h1 : sendMessage env s t st id ec ip et b c = .ok (st1, ev)) :
    sendMessage env2 s2 t2 st1 id ec2 ip2 et2 b2 c2 = .error .DuplicateId ∧
    getMsg st1 id =
      { encryptedContent := env.fromExternal ec ip, expirationTime := et,
        isBurnAfterReading := b, isDecrypted := false, sender := s,
        timestamp := t, condition := c, decryptedContent := 0 } ∧
    applyOp env2 t2 st1 (.send s2 id ec2 ip2 et2 b2 c2) = st1 := by
  obtain ⟨hempty, hinit, hst1, hev⟩ :=
    send_ok_cases env s t st id ec ip et b c st1 ev h1
  have hget : getMsg st1 id =
      { encryptedContent := env.fromExternal ec ip, expirationTime := et,
        isBurnAfterReading := b, isDecrypted := false, sender := s,
        timestamp := t, condition := c, decryptedContent := 0 } := by
    subst hst1
    exact getMsg_cons_self st.encryptedMessages _ id _
  have hdup : sendMessage env2 s2 t2 st1 id ec2 ip2 et2 b2 c2 =
      .error .DuplicateId :=
    (send_duplicate_iff env2 s2 t2 st1 id ec2 ip2 et2 b2 c2).mpr
      (by rw [hget]; exact hc)
  exact ⟨hdup, hget, by simp only [applyOp, hdup]⟩

theorem create_duplicate_id_witness :
    sendMessage envOK 8 200 stBurn "m1" 6 [] 2000 false "d" =
      .error .DuplicateId ∧
    getMsg stBurn "m1" =
      { encryptedContent := 5, expirationTime := 1000,
        isBurnAfterReading := true, isDecrypted := false, sender := 7,
        timestamp := 100, condition := "c", decryptedContent := 0 } ∧
    applyOp envOK 200 stBurn (.send 8 "m1" 6 [] 2000 false "d") = stBurn :=
  create_duplicate_id envOK envOK 7 8 100 200 ContractState.init stBurn "m1"
    5 6 [] [] 1000 2000 true false "c" "d" (.MessageSent "m1" 7)
    (by decide) rfl

/-- C6: a successful decrypt of a non-burn record decodes the clear value,
stores it, sets the decrypted flag, emits `MessageDecrypted`, and a
subsequent read returns `decrypted = true` and that value. -/
theorem decrypt_nonburn_success (env : FHEEnv) (now : Nat) (st : ContractState)
    (id : String) (cv p : Bytes) (st' : ContractState) (ev : Event)
    (hb : (getMsg st id).isBurnAfterReading = false)
    (h : decryptMessage env now st id cv p = .ok (st', ev)) :
    ∃ v, abiDecodeU32 cv = some v ∧
      ev = .MessageDecrypted id v ∧
      (getMsg st' id).isDecrypted = true ∧
      (getMsg st' id).decryptedContent = v ∧
      getMessage st' id = .ok
        { expirationTime := (getMsg st id).expirationTime,
          isBurnAfterReading := false,
          isDecrypted := true,
          sender := (getMsg st id).sender,
          timestamp := (getMsg st id).timestamp,
          condition := (getMsg st id).condition,
          decryptedContent := v } := by
  obtain ⟨hne, hnd, hle, hsig, v, hv, hcase⟩ :=
    decrypt_ok_cases env now st id cv p st' ev h
  rcases hcase with ⟨hb2, -, -⟩ | ⟨hb2, hst', hev⟩
  · rw [hb] at hb2; cases hb2
  · subst hst'
    refine ⟨v, hv, hev, ?_, ?_, ?_⟩
    · rw [getMsg_setMsg_self]
    · rw [getMsg_setMsg_self]
    · unfold getMessage
      rw [getMsg_setMsg_self]
      simp only [hb]
      rw [if_neg hne]

theorem decrypt_nonburn_success_witness :
    ∃ v, abiDecodeU32 enc42 = some v ∧
      Event.MessageDecrypted "m1" 42 = .MessageDecrypted "m1" v ∧
      (getMsg stPlainDec "m1").isDecrypted = true ∧
      (getMsg stPlainDec "m1").decryptedContent = v ∧
      getMessage stPlainDec "m1" = .ok
        { expirationTime := 1000, isBurnAfterReading := false,
          isDecrypted := true, sender := 7, timestamp := 100,
          condition := "c", decryptedContent := v } :=
  decrypt_nonburn_success envOK 500 stPlain "m1" enc42 [] stPlainDec
    (.MessageDecrypted "m1" 42) rfl rfl

/-- C7: the stored ciphertext handle is never altered while the record
exists (any operation that keeps the record in existence keeps its handle),
and the decryption proof is always verified against the stored handle:
an `InvalidProof`, respectively a success, reflects the signature check on
exactly `[(getMsg st id).encryptedContent]`. -/
theorem ciphertext_binding_immutable :
    (∀ (env : FHEEnv) (t : Nat) (st : ContractState) (id : String) (op : Op),
      msgExists st id → msgExists (applyOp env t st op) id →
      (getMsg (applyOp env t st op) id).encryptedContent =
        (getMsg st id).encryptedContent) ∧
    (∀ (env : FHEEnv) (now : Nat) (st : ContractState) (id : String)
        (cv p : Bytes),
      decryptMessage env now st id cv p = .error .InvalidProof →
      env.checkSignatures [(getMsg st id).encryptedContent] cv p = false) ∧
    (∀ (env : FHEEnv) (now : Nat) (st : ContractState) (id : String)
        (cv p : Bytes) (st' : ContractState) (ev : Event),
      decryptMessage env now st id cv p = .ok (st', ev) →
      env.checkSignatures [(getMsg st id).encryptedContent] cv p = true) := by
  refine ⟨?_, ?_, ?_⟩
  · intro env t st id op hex hex2
    exact applyOp_preserves_handle env t st id op hex hex2
  · intro env now st id cv p h
    exact ((decrypt_invalidProof_iff env now st id cv p).mp h).2.2.2
  · intro env now st id cv p st' ev h
    exact (decrypt_ok_cases env now st id cv p st' ev h).2.2.2.1

theorem ciphertext_binding_immutable_witness :
    (getMsg (applyOp envOK 500 stPlain (.decrypt "m1" enc42 [])) "m1").encryptedContent =
      (getMsg stPlain "m1").encryptedContent ∧
    envBad.checkSignatures [(getMsg stPlain "m1").encryptedContent] enc42 [] = false :=
  ⟨ciphertext_binding_immutable.1 envOK 500 stPlain "m1" (.decrypt "m1" enc42 [])
      (by decide) (by decide),
   ciphertext_binding_immutable.2.1 envBad 500 stPlain "m1" enc42 [] rfl⟩

/-- C1 counterexample: decrypting the burn-after-read record `"m1"` succeeds
and deletes it (`read` then fails with `NotFound`), yet `getAllMessageIds`
still contains `"m1"` — the claim that the list omits the id is false. -/
theorem burn_listIds_counterexample :
    decryptMessage envOK 150 stBurn "m1" enc42 [] =
      .ok (stBurned, .MessageBurned "m1") ∧
    getMessage stBurned "m1" = .error .NotFound ∧
    "m1" ∈ getAllMessageIds stBurned :=
  ⟨rfl, rfl, by decide⟩

/-- C1 (amended): after a burn-after-read decryption, `read(id)` fails with
`NotFound` and the record no longer exists, but `getAllMessageIds` is left
unchanged by the decrypt — the burned id is not removed from it. -/
theorem burn_erasure_amended (env : FHEEnv) (now : Nat) (st : ContractState)
    (id : String) (cv p : Bytes) (st' : ContractState)
    (h : decryptMessage env now st id cv p = .ok (st', .MessageBurned id)) :
    getMessage st' id = .error .NotFound ∧
    ¬ msgExists st' id ∧
    getAllMessageIds st' = getAllMessageIds st := by
  obtain ⟨hne, hnd, hle, hsig, v, hv, hcase⟩ :=
    decrypt_ok_cases env now st id cv p st' _ h
  rcases hcase with ⟨hb, hst', -⟩ | ⟨-, -, hev⟩
  · subst hst'
    refine ⟨?_, ?_, rfl⟩
    · unfold getMessage
      rw [getMsg_setMsg_self]
      rfl
    · unfold msgExists
      rw [getMsg_setMsg_self]
      simp [EncryptedMessage.zero]
  · cases hev

theorem burn_erasure_amended_witness :
    getMessage stBurned "m1" = .error .NotFound ∧
    ¬ msgExists stBurned "m1" ∧
    getAllMessageIds stBurned = getAllMessageIds stBurn :=
  burn_erasure_amended envOK 150 stBurn "m1" enc42 [] stBurned rfl

/-- C2 counterexample: the burn-after-read record `"m1"` is decrypted
successfully, then created again (the burn reset the existence sentinel),
and then a second decrypt call on the same id succeeds as well — so "every
subsequent decrypt call on the same id fails" is false on the code. -/
theorem repeat_decrypt_counterexample :
    decryptMessage envOK 150 stBurn "m1" enc42 [] =
      .ok (stBurned, .MessageBurned "m1") ∧
    sendMessage envOK 8 200 stBurned "m1" 6 [] 2000 true "d" =
      .ok (stRecreated, .MessageSent "m1" 8) ∧
    decryptMessage envOK 250 stRecreated "m1" enc42 [] =
      .ok (setMsg stRecreated "m1" EncryptedMessage.zero, .MessageBurned "m1") :=
  ⟨rfl, rfl, rfl⟩

/-- C2 (amended): once a decrypt on `id` succeeds — non-burn case: the
record is untouched by every further operation sequence, its decrypted flag
stays `true`, and every subsequent decrypt on `id` fails with
`AlreadyDecrypted`; burn case: a decrypt on the deleted record fails with
`NotFound` (until, as the counterexample shows, a new create reuses the id). -/
theorem at_most_once_decryption_amended (env : FHEEnv) (now : Nat)
    (st : ContractState) (id : String) (cv p : Bytes) (st' : ContractState)
    (ev : Event) (h : decryptMessage env now st id cv p = .ok (st', ev)) :
    ((getMsg st id).isBurnAfterReading = false →
      (∀ ops, getMsg (applyOps st' ops) id = getMsg st' id) ∧
      (getMsg st' id).isDecrypted = true ∧
      (∀ ops (env2 : FHEEnv) (now2 : Nat) (cv2 p2 : Bytes),
        decryptMessage env2 now2 (applyOps st' ops) id cv2 p2 =
          .error .AlreadyDecrypted)) ∧
    ((getMsg st id).isBurnAfterReading = true →
      ∀ (env2 : FHEEnv) (now2 : Nat) (cv2 p2 : Bytes),
        decryptMessage env2 now2 st' id cv2 p2 = .error .NotFound) := by
  obtain ⟨hne, hnd, hle, hsig, v, hv, hcase⟩ :=
    decrypt_ok_cases env now st id cv p st' ev h
  constructor
  · intro hb
    rcases hcase with ⟨hb2, -, -⟩ | ⟨hb2, hst', hev⟩
    · rw [hb] at hb2; cases hb2
    · subst hst'
      have hex2 : ¬ (getMsg (setMsg st id
          { getMsg st id with decryptedContent := v, isDecrypted := true })
            id).condition.length = 0 := by
        rw [getMsg_setMsg_self]; exact hne
      have hd2 : (getMsg (setMsg st id
          { getMsg st id with decryptedContent := v, isDecrypted := true })
            id).isDecrypted = true := by
        rw [getMsg_setMsg_self]
      refine ⟨fun ops => applyOps_preserves_decrypted_record _ id ops hex2 hd2,
        hd2, ?_⟩
      intro ops env2 now2 cv2 p2
      have hk := applyOps_preserves_decrypted_record _ id ops hex2 hd2
      exact (decrypt_alreadyDecrypted_iff env2 now2 _ id cv2 p2).mpr
        ⟨by rw [hk]; exact hex2, by rw [hk]; exact hd2⟩
  · intro hb
    rcases hcase with ⟨-, hst', -⟩ | ⟨hb2, -, -⟩
    · subst hst'
      intro env2 now2 cv2 p2
      refine (decrypt_notFound_iff env2 now2 _ id cv2 p2).mpr ?_
      rw [getMsg_setMsg_self]
      rfl
    · rw [hb] at hb2; cases hb2

theorem at_most_once_decryption_amended_witness :
    decryptMessage envOK 600 stPlainDec "m1" enc42 [] =
      .error .AlreadyDecrypted :=
  (((at_most_once_decryption_amended envOK 500 stPlain "m1" enc42 []
      stPlainDec (.MessageDecrypted "m1" 42) rfl).1 rfl).2.2)
    [] envOK 600 enc42 []

/-- The state written by a successful `sendMessage`: the new record bound to
`messageId` and the id pushed onto `messageIds`. -/
def sentState (st : ContractState) (messageId : String)
    (rec : EncryptedMessage) : ContractState :=
  { encryptedMessages := (messageId, rec) :: st.encryptedMessages,
    messageIds := st.messageIds ++ [messageId] }

theorem getMsg_sentState_self (st : ContractState) (messageId : String)
    (rec : EncryptedMessage) :
    getMsg (sentState st messageId rec) messageId = rec :=
  getMsg_cons_self st.encryptedMessages _ messageId rec

theorem sentState_messageIds (st : ContractState) (messageId : String)
    (rec : EncryptedMessage) :
    (sentState st messageId rec).messageIds = st.messageIds ++ [messageId] := rfl

/-- The record written by a create call whose `condition` argument is empty. -/
def recEmptyCond : EncryptedMessage :=
  { encryptedContent := 5, expirationTime := 1000, isBurnAfterReading := false,
    isDecrypted := false, sender := 7, timestamp := 100, condition := "",
    decryptedContent := 0 }

/-- State after such a create on a fresh contract. -/
def stEmptyCond : ContractState :=
  { encryptedMessages := [("m1", recEmptyCond)], messageIds := ["m1"] }

/-- C9 counterexample: a create call with an empty `condition` does not
fail — it succeeds and emits `MessageSent` — and the record it wrote is not
observable: `read` fails with `NotFound`. -/
theorem empty_condition_counterexample :
    sendMessage envOK 7 100 ContractState.init "m1" 5 [] 1000 false "" =
      .ok (stEmptyCond, .MessageSent "m1" 7) ∧
    getMessage stEmptyCond "m1" = .error .NotFound ∧
    decryptMessage envOK 100 stEmptyCond "m1" enc42 [] = .error .NotFound :=
  ⟨rfl, rfl, rfl⟩

/-- C9 (amended): the contract performs no emptiness check on the supplied
`condition`: a create with an empty condition on a free id succeeds (given a
well-formed ciphertext), appends the id to the identifier list, but writes a
record that the existence sentinel makes invisible — `read` and `decrypt`
both fail with `NotFound`. -/
theorem empty_condition_create_amended (env : FHEEnv) (s : Address) (t : Nat)
    (st : ContractState) (id : String) (ec : Nat) (ip : Bytes) (et : Nat)
    (b : Bool)
    (hne : ¬ msgExists st id)
    (hinit : env.isInitialized (env.fromExternal ec ip) = true) :
    ∃ st', sendMessage env s t st id ec ip et b "" =
        .ok (st', .MessageSent id s) ∧
      ¬ msgExists st' id ∧
      getMessage st' id = .error .NotFound ∧
      (∀ (env2 : FHEEnv) (now2 : Nat) (cv2 p2 : Bytes),
        decryptMessage env2 now2 st' id cv2 p2 = .error .NotFound) ∧
      getAllMessageIds st' = getAllMessageIds st ++ [id] := by
  have hlen : (getMsg st id).condition.length = 0 := not_not.mp hne
  refine ⟨sentState st id
      { encryptedContent := env.fromExternal ec ip, expirationTime := et,
        isBurnAfterReading := b, isDecrypted := false, sender := s,
        timestamp := t, condition := "", decryptedContent := 0 },
    ?_, ?_, ?_, ?_, rfl⟩
  · unfold sendMessage
    rw [if_neg (by simpa using hlen), if_neg (by simp [hinit])]
    rfl
  · unfold msgExists
    rw [getMsg_sentState_self]
    simp
  · unfold getMessage
    rw [getMsg_sentState_self]
    rfl
  · intro env2 now2 cv2 p2
    refine (decrypt_notFound_iff env2 now2 _ id cv2 p2).mpr ?_
    rw [getMsg_sentState_self]
    rfl

theorem empty_condition_create_amended_witness :
    ∃ st', sendMessage envOK 7 100 ContractState.init "m1" 5 [] 1000 false "" =
        .ok (st', .MessageSent "m1" 7) ∧
      ¬ msgExists st' "m1" ∧
      getMessage st' "m1" = .error .NotFound ∧
      (∀ (env2 : FHEEnv) (now2 : Nat) (cv2 p2 : Bytes),
        decryptMessage env2 now2 st' "m1" cv2 p2 = .error .NotFound) ∧
      getAllMessageIds st' = getAllMessageIds ContractState.init ++ ["m1"] :=
  empty_condition_create_amended envOK 7 100 ContractState.init "m1" 5 [] 1000
    false (by decide) rfl

/-- C10: after a burn-after-read record is decrypted (hence deleted), a new
create with the same id succeeds again — the burn reset the empty-condition
existence sentinel — and the id is appended to the identifier list a second
time, so `getAllMessageIds` can contain the same id more than once. -/
theorem burn_then_recreate (env : FHEEnv) (now : Nat) (st : ContractState)
    (id : String) (cv p : Bytes) (st' : ContractState)
    (env2 : FHEEnv) (s2 : Address) (t2 : Nat) (ec2 : Nat) (ip2 : Bytes)
    (et2 : Nat) (b2 : Bool) (c2 : String)
    (h : decryptMessage env now st id cv p = .ok (st', .MessageBurned id))
    (hinit : env2.isInitialized (env2.fromExternal ec2 ip2) = true) :
    ∃ st2, sendMessage env2 s2 t2 st' id ec2 ip2 et2 b2 c2 =
        .ok (st2, .MessageSent id s2) ∧
      getAllMessageIds st2 = getAllMessageIds st ++ [id] ∧
      (id ∈ getAllMessageIds st → 2 ≤ (getAllMessageIds st2).count id) := by
  obtain ⟨hne, hnd, hle, hsig, v, hv, hcase⟩ :=
    decrypt_ok_cases env now st id cv p st' _ h
  rcases hcase with ⟨hb, hst', -⟩ | ⟨-, -, hev⟩
  · subst hst'
    refine ⟨sentState (setMsg st id EncryptedMessage.zero) id
        { encryptedContent := env2.fromExternal ec2 ip2,
          expirationTime := et2, isBurnAfterReading := b2,
          isDecrypted := false, sender := s2, timestamp := t2,
          condition := c2, decryptedContent := 0 },
      ?_, ?_, ?_⟩
    · unfold sendMessage
      rw [if_neg (by rw [getMsg_setMsg_self]; simp [EncryptedMessage.zero]),
        if_neg (by simp [hinit])]
      rfl
    · rfl
    · intro hmem
      have hpos : 0 < (getAllMessageIds st).count id :=
        List.count_pos_iff.mpr hmem
      have hcnt : ∀ rec, (getAllMessageIds
          (sentState (setMsg st id EncryptedMessage.zero) id rec)).count id =
          (getAllMessageIds st).count id + 1 := by
        intro rec
        simp [getAllMessageIds, sentState, setMsg, List.count_append]
      rw [hcnt]
      omega
  · cases hev

theorem burn_then_recreate_witness :
    ∃ st2, sendMessage envOK 8 200 stBurned "m1" 6 [] 2000 true "d" =
        .ok (st2, .MessageSent "m1" 8) ∧
      getAllMessageIds st2 = getAllMessageIds stBurn ++ ["m1"] ∧
      ("m1" ∈ getAllMessageIds stBurn → 2 ≤ (getAllMessageIds st2).count "m1") :=
  burn_then_recreate envOK 150 stBurn "m1" enc42 [] stBurned envOK 8 200 6 []
    2000 true "d" rfl rfl
